import Mathlib

/-!
Shallow embedding of the calendar-sync / bot-dispatch engine
(`handler` lambda: syncAllUserCalendars, syncUserCalendar, refreshGoogleToken,
handleDeletedEvent, handleDeletedEventFromDB, processEvent,
scheduleBotsForUpcomingMeetings, canUserScheduleMeeting, incrementMeetingUsage,
and the bot-toggle API route).

The persistent store is modelled as an explicit state (`DB`) holding the user
and meeting tables as lists; timestamps are integers (milliseconds since
epoch).  External collaborators (the calendar fetch, the OAuth token exchange,
the bot-deployment API) are modelled as explicit result values passed to the
functions, mirroring the branches the source takes on each outcome.  Store
writes whose failure the source would surface as an exception caught by an
enclosing handler are modelled by `Option` results where the source can
actually hit that path (deleting a non-existent row).
-/

/-- A calendar-event attendee as read by the source (`a.email`). -/
structure Attendee where
  email : String
deriving Repr, DecidableEq

/-- One entry of `conferenceData.entryPoints`; `uri` may be absent. -/
structure EntryPoint where
  uri : Option String
deriving Repr, DecidableEq

/-- `event.conferenceData`; `entryPoints` may be absent. -/
structure ConferenceData where
  entryPoints : Option (List EntryPoint)
deriving Repr, DecidableEq

/-- A raw Google Calendar event as the source reads it.  `startDateTime`
models `event.start?.dateTime` (absent when either level is missing);
`endDateTime` models `event.end.dateTime`, which the source reads
unconditionally (the provider guarantees `end` on every event).
Datetime strings are modelled as integer timestamps. -/
structure GoogleEvent where
  id : String
  status : Option String
  summary : Option String
  description : Option String
  hangoutLink : Option String
  conferenceData : Option ConferenceData
  startDateTime : Option Int
  endDateTime : Int
  attendees : Option (List Attendee)
deriving Repr, DecidableEq

/-- A row of the `user` table (the fields the engine reads or writes). -/
structure User where
  id : String
  calendarConnected : Bool
  googleAccessToken : Option String
  googleRefreshToken : Option String
  googleTokenExpiry : Int
  currentPlan : String
  subscriptionStatus : String
  meetingsThisMonth : Nat
  botName : Option String
  botImageUrl : Option String
deriving Repr, DecidableEq

/-- A row of the `meeting` table.  `attendees` is stored by the source as a
JSON string of the email list (or SQL NULL); the embedding stores the email
list itself, keeping the null / non-null distinction. -/
structure Meeting where
  id : String
  calendarEventId : Option String
  userId : String
  title : String
  description : Option String
  meetingUrl : Option String
  startTime : Int
  endTime : Int
  attendees : Option (List String)
  isFromCalendar : Bool
  botScheduled : Bool
  botSent : Bool
  botId : Option String
  botJoinedAt : Option Int
deriving Repr, DecidableEq

/-- The persistent store: the two tables the engine touches. -/
structure DB where
  users : List User
  meetings : List Meeting
deriving Repr, DecidableEq

/-- `prisma.user.update({where: {id}})`: apply `f` to the rows whose id
matches (the unique one, under the table's key invariant). -/
def updateUserById (db : DB) (uid : String) (f : User → User) : DB :=
  { db with users := db.users.map fun u => if u.id == uid then f u else u }

/-- `prisma.meeting.update({where: {id}})`. -/
def updateMeetingById (db : DB) (mid : String) (f : Meeting → Meeting) : DB :=
  { db with meetings := db.meetings.map fun m => if m.id == mid then f m else m }

/-- `prisma.meeting.update({where: {calendarEventId}})`. -/
def updateMeetingsByEventId (db : DB) (eid : String) (f : Meeting → Meeting) : DB :=
  { db with meetings :=
      db.meetings.map fun m => if m.calendarEventId == some eid then f m else m }

/-- `prisma.meeting.findUnique({where: {calendarEventId}})`. -/
def findMeetingByEventId (db : DB) (eid : String) : Option Meeting :=
  db.meetings.find? fun m => m.calendarEventId == some eid

/-- `prisma.meeting.findMany` then `.filter` by id in the dispatcher's updates;
used in theorem statements to read a meeting row back. -/
def findMeetingById (db : DB) (mid : String) : Option Meeting :=
  db.meetings.find? fun m => m.id == mid

/-- Read a user row back by id. -/
def findUserById (db : DB) (uid : String) : Option User :=
  db.users.find? fun u => u.id == uid

/-- `prisma.meeting.delete({where: {calendarEventId}})`, after the source's
`findUnique` guard: removes the matching rows (the unique one, under the
key invariant). -/
def removeMeetingsByEventId (db : DB) (eid : String) : DB :=
  { db with meetings := db.meetings.filter fun m => !(m.calendarEventId == some eid) }

/-- `prisma.meeting.delete({where: {id}})`: `none` models the exception the
store throws when no row matches (prisma error P2025). -/
def deleteMeetingById (db : DB) (mid : String) : Option DB :=
  if db.meetings.any (fun m => m.id == mid) then
    some { db with meetings := db.meetings.filter fun m => !(m.id == mid) }
  else
    none

/-- `event.hangoutLink || event.conferenceData?.entryPoints?.[0]?.uri`.
An absent field is `none`; JS string falsiness on the empty string is
modelled by representing an absent-or-empty link as `none`. -/
def extractMeetingUrl (e : GoogleEvent) : Option String :=
  match e.hangoutLink with
  | some u => some u
  | none =>
    match e.conferenceData with
    | some cd =>
      match cd.entryPoints with
      | some (ep :: _) => ep.uri
      | _ => none
    | none => none

/-- `event.summary || "Untitled Meeting"`. -/
def evTitle (e : GoogleEvent) : String :=
  match e.summary with
  | some t => t
  | none => "Untitled Meeting"

/-- `event.attendees ? JSON.stringify(event.attendees.map(a => a.email)) : null`,
with the JSON string represented by the email list itself. -/
def evAttendees (e : GoogleEvent) : Option (List String) :=
  match e.attendees with
  | some l => some (l.map Attendee.email)
  | none => none

/-- The id the store generates for a row created by `prisma.meeting.create`;
modelled as a deterministic fresh name derived from the event id. -/
def newMeetingId (e : GoogleEvent) : String :=
  "gen:" ++ e.id

/-- The mutable-field update `processEvent` applies to an existing row:
title, description, meetingUrl, startTime, endTime, attendees always;
`botScheduled := true` only when the previously found row has
`botSent = false` (source: `if (!exsistingMeeting.botSent) updateData.botScheduled = ...`). -/
def processEventUpdate (e : GoogleEvent) (url : String) (st : Int)
    (existingBotSent : Bool) (m : Meeting) : Meeting :=
  let m1 := { m with
    title := evTitle e
    description := e.description
    meetingUrl := some url
    startTime := st
    endTime := e.endDateTime
    attendees := evAttendees e }
  if existingBotSent then m1 else { m1 with botScheduled := true }

/-- The row `prisma.meeting.create` inserts for a fresh event: the `eventData`
object of the source, with the store's defaults for the bot fields absent
from the create payload (`botSent = false`, no bot id, no join timestamp). -/
def newMeetingRecord (user : User) (e : GoogleEvent) (url : String) (st : Int) : Meeting :=
  { id := newMeetingId e
    calendarEventId := some e.id
    userId := user.id
    title := evTitle e
    description := e.description
    meetingUrl := some url
    startTime := st
    endTime := e.endDateTime
    attendees := evAttendees e
    isFromCalendar := true
    botScheduled := true
    botSent := false
    botId := none
    botJoinedAt := none }

/-- `processEvent(user, event)`: skip when the join URL or the start time is
missing; otherwise upsert by `calendarEventId`. -/
def processEvent (user : User) (e : GoogleEvent) (db : DB) : DB :=
  match extractMeetingUrl e, e.startDateTime with
  | some url, some st =>
    match findMeetingByEventId db e.id with
    | some existing =>
      updateMeetingsByEventId db e.id (processEventUpdate e url st existing.botSent)
    | none =>
      { db with meetings := db.meetings ++ [newMeetingRecord user e url st] }
  | _, _ => db

/-- `handleDeletedEvent(event)`: delete the row matching the cancelled
event's `calendarEventId` when present; otherwise no-op. -/
def handleDeletedEvent (e : GoogleEvent) (db : DB) : DB :=
  match findMeetingByEventId db e.id with
  | some _ => removeMeetingsByEventId db e.id
  | none => db

/-- `handleDeletedEventFromDB(dbEvent)`: deletes the meeting whose id is
`dbEvent.id`.  The source declares one parameter, but its only call site is
`handleDeletedEventFromDB(user, deletedEvent)`, so `dbEvent` is bound to the
user row; the function therefore deletes by the account's id.  `none` models
the store exception when no such meeting row exists. -/
def handleDeletedEventFromDB (dbEvent : User) (db : DB) : Option DB :=
  deleteMeetingById db dbEvent.id

/-- The `for (const deletedEvent of deletedEvents)` loop: one
`handleDeletedEventFromDB(user, deletedEvent)` call per stale row; a store
exception aborts the loop (it propagates to `syncUserCalendar`'s handler,
whose message check matches no 401/403, so the run just ends). -/
def deleteStale (user : User) : List Meeting → DB → DB
  | [], db => db
  | _ :: rest, db =>
    match handleDeletedEventFromDB user db with
    | some db2 => deleteStale user rest db2
    | none => db

/-- One iteration of the event loop: cancelled events are deleted, the rest
are upserted. -/
def stepEvent (user : User) (db : DB) (e : GoogleEvent) : DB :=
  if e.status == some "cancelled" then handleDeletedEvent e db
  else processEvent user e db

/-- The `googleEventIds` set: ids of the non-cancelled fetched events
(cancelled ones are skipped before the `add`). -/
def seenIds (events : List GoogleEvent) : List String :=
  (events.filter fun e => !(e.status == some "cancelled")).map GoogleEvent.id

/-- Membership test of the local row's `calendarEventId` in the seen set,
as `googleEventIds.has(dbEvent.calendarEventId)`; a null id is never in the
set, so such a row counts as stale. -/
def staleRow (seen : List String) (m : Meeting) : Bool :=
  match m.calendarEventId with
  | some eid => !(seen.contains eid)
  | none => true

/-- The body of `syncUserCalendar` after a successful fetch: snapshot the
account's upcoming calendar-origin rows, run the event loop (the single JS
loop both accumulates `googleEventIds` and mutates the store; the set does
not influence the mutations, so the embedding computes them separately),
then delete the stale rows. -/
def reconcileOk (user : User) (events : List GoogleEvent) (now : Int) (db : DB) : DB :=
  let existing := db.meetings.filter fun m =>
    m.userId == user.id && m.isFromCalendar && decide (now ≤ m.startTime)
  let db1 := events.foldl (stepEvent user) db
  let stale := existing.filter (staleRow (seenIds events))
  deleteStale user stale db1

/-- Outcome of the OAuth token-exchange call: a token with its reported
lifetime, a response without an `access_token` field, or a thrown error. -/
inductive ExchangeResult where
  | ok (accessToken : String) (expiresIn : Int)
  | noToken
  | threw
deriving Repr, DecidableEq

/-- `refreshGoogleToken(user)`: returns the new access token (or `none` for
"unavailable") together with the updated store. -/
def refreshGoogleToken (user : User) (exchange : ExchangeResult) (now : Int)
    (db : DB) : Option String × DB :=
  match user.googleRefreshToken with
  | none =>
    (none, updateUserById db user.id fun u =>
      { u with calendarConnected := false, googleAccessToken := none })
  | some _ =>
    match exchange with
    | .noToken =>
      (none, updateUserById db user.id fun u => { u with calendarConnected := false })
    | .threw =>
      (none, updateUserById db user.id fun u => { u with calendarConnected := false })
    | .ok tok expiresIn =>
      (some tok, updateUserById db user.id fun u =>
        { u with googleAccessToken := some tok
                 googleTokenExpiry := now + expiresIn * 1000 })

/-- Outcome of the calendar-event fetch: a body, a non-2xx status, or a
thrown network error. -/
inductive FetchResult where
  | ok (events : List GoogleEvent)
  | httpError (status : Nat)
  | networkError
deriving Repr, DecidableEq

/-- The outer catch of `syncUserCalendar` checks
`error.message.includes("401") || error.message.includes("403")`; for the
thrown `Calendar API failed: {status}` message this is a check on the
decimal status code. -/
def statusMentionsAuth (status : Nat) : Bool :=
  status == 401 || status == 403

/-- Clear the account's connected flag (the 401 / auth-error handling). -/
def disconnectCalendar (user : User) (db : DB) : DB :=
  updateUserById db user.id fun u => { u with calendarConnected := false }

/-- The fetch-and-reconcile part of `syncUserCalendar`, after the token
check: 401 disconnects and returns; another non-2xx status throws, and the
outer catch disconnects only when the message mentions 401/403; a network
error is caught and logged.  No meeting row is touched on any failure. -/
def syncFetch (user : User) (fetch : FetchResult) (now : Int) (db : DB) : DB :=
  match fetch with
  | .ok events => reconcileOk user events now db
  | .httpError status =>
    if status == 401 then disconnectCalendar user db
    else if statusMentionsAuth status then disconnectCalendar user db
    else db
  | .networkError => db

/-- `syncUserCalendar(user)`: refresh the credential when the stored expiry
is within the 10-minute margin (skipping the sync when the refresh fails),
then fetch and reconcile. -/
def syncUserCalendar (user : User) (exchange : ExchangeResult)
    (fetch : FetchResult) (now : Int) (db : DB) : DB :=
  if user.googleTokenExpiry ≤ now + 10 * 60 * 1000 then
    match refreshGoogleToken user exchange now db with
    | (none, db1) => db1
    | (some _, db1) => syncFetch user fetch now db1
  else
    syncFetch user fetch now db

/-- Result of `canUserScheduleMeeting`. -/
structure QuotaResult where
  allowed : Bool
  reason : Option String
deriving Repr, DecidableEq

/-- `PLAN_LIMITS[user.currentPlan] || PLAN_LIMITS.free`: the monthly cap,
`-1` for unlimited, defaulting to the free tier's cap for unknown plans. -/
def planLimit (plan : String) : Int :=
  if plan == "free" then 0
  else if plan == "starter" then 10
  else if plan == "pro" then 30
  else if plan == "premium" then -1
  else 0

/-- `canUserScheduleMeeting(user)`: deny for the free tier or an inactive
subscription, deny when a finite cap is reached, else allow.  The reason
strings stand in for the source's templated messages. -/
def canUserScheduleMeeting (user : User) : QuotaResult :=
  let limit := planLimit user.currentPlan
  if user.currentPlan == "free" || !(user.subscriptionStatus == "active") then
    { allowed := false, reason := some "upgrade required" }
  else if !(limit == -1) && decide ((user.meetingsThisMonth : Int) ≥ limit) then
    { allowed := false, reason := some "monthly limit reached" }
  else
    { allowed := true, reason := none }

/-- `incrementMeetingUsage(userId)`. -/
def incrementMeetingUsage (userId : String) (db : DB) : DB :=
  updateUserById db userId fun u => { u with meetingsThisMonth := u.meetingsThisMonth + 1 }

/-- The dispatcher's selection filter: start time within [now, now+5m],
bot scheduled, bot not yet sent, join URL non-null. -/
def eligibleMeeting (now : Int) (m : Meeting) : Bool :=
  decide (now ≤ m.startTime) && decide (m.startTime ≤ now + 5 * 60 * 1000) &&
  m.botScheduled && !m.botSent && m.meetingUrl.isSome

/-- Outcome of the bot-deployment call (`POST /bots`): a bot id on 2xx, or a
non-2xx response (which the source turns into a thrown, per-meeting-caught
error). -/
inductive BotApiResult where
  | ok (botId : String)
  | httpError
deriving Repr, DecidableEq

/-- The dispatcher's running state: the store plus the list of meeting ids
for which a bot-deployment request was actually issued. -/
structure DispatchOutcome where
  db : DB
  calls : List String
deriving Repr, DecidableEq

/-- One iteration of the dispatcher loop over a selected meeting paired with
its included (snapshotted) user row.  Quota denial marks the row sent
without calling the provider; a non-2xx response throws after the call, so
the catch leaves the store untouched; success marks the row, stores the bot
id and join timestamp, then increments the owner's usage counter. -/
def dispatchStep (now : Int) (baas : String → BotApiResult)
    (acc : DispatchOutcome) (sel : Meeting × Option User) : DispatchOutcome :=
  match sel.2 with
  | none => acc
  | some u =>
    if !(canUserScheduleMeeting u).allowed then
      { acc with db := updateMeetingById acc.db sel.1.id fun m =>
          { m with botSent := true, botJoinedAt := some now } }
    else
      match baas sel.1.id with
      | .httpError => { acc with calls := acc.calls ++ [sel.1.id] }
      | .ok botId =>
        let db1 := updateMeetingById acc.db sel.1.id fun m =>
          { m with botSent := true, botId := some botId, botJoinedAt := some now }
        { db := incrementMeetingUsage sel.1.userId db1
          calls := acc.calls ++ [sel.1.id] }

/-- The `findMany ... include: {user: true}` query: the eligible meetings,
each paired with its owner row as of selection time. -/
def selectUpcoming (now : Int) (db : DB) : List (Meeting × Option User) :=
  (db.meetings.filter (eligibleMeeting now)).map fun m =>
    (m, db.users.find? fun u => u.id == m.userId)

/-- `scheduleBotsForUpcomingMeetings()`: fold the per-meeting step over the
selection; per-meeting errors are caught inside the step, so the loop never
aborts. -/
def scheduleBotsForUpcomingMeetings (now : Int) (baas : String → BotApiResult)
    (db : DB) : DispatchOutcome :=
  (selectUpcoming now db).foldl (dispatchStep now baas) { db := db, calls := [] }

/-- The bot-toggle API route's update: set `botScheduled` on the meeting
row, guarded by the compound where clause {id, userId}. -/
def botToggle (db : DB) (meetingId : String) (ownerId : String) (value : Bool) : DB :=
  { db with meetings := db.meetings.map fun m =>
      if m.id == meetingId && m.userId == ownerId then { m with botScheduled := value } else m }

/-! ### Generic list lemmas used by the frame reasoning -/

theorem map_congr_id {α : Type} {l : List α} {f : α → α} (h : ∀ a ∈ l, f a = a) :
    l.map f = l := by
  induction l with
  | nil => rfl
  | cons a t ih =>
    simp only [List.map_cons, h a (List.mem_cons_self a t)]
    rw [ih fun b hb => h b (List.mem_cons_of_mem a hb)]

theorem find?_map_pres {α : Type} (l : List α) (f : α → α) (p : α → Bool)
    (h : ∀ a, p (f a) = p a) : (l.map f).find? p = (l.find? p).map f := by
  induction l with
  | nil => rfl
  | cons a t ih =>
    rw [List.map_cons, List.find?_cons, List.find?_cons, h a]
    cases hpa : p a
    · simpa using ih
    · rfl

theorem find?_map_fix {α : Type} (l : List α) (f : α → α) (p : α → Bool)
    (h1 : ∀ a, p (f a) = p a) (h2 : ∀ a, p a = true → f a = a) :
    (l.map f).find? p = l.find? p := by
  rw [find?_map_pres l f p h1]
  cases hf : l.find? p with
  | none => rfl
  | some a => simp [h2 a (List.find?_some hf)]

theorem find?_key_nodup {α β : Type} [DecidableEq β] (key : α → β) (l : List α)
    (m : α) (hm : m ∈ l) (hnd : (l.map key).Nodup) :
    l.find? (fun a => key a == key m) = some m := by
  induction l with
  | nil => cases hm
  | cons a t ih =>
    rw [List.map_cons, List.nodup_cons] at hnd
    by_cases ha : key a = key m
    · have ham : a = m := by
        rcases List.mem_cons.mp hm with h | h
        · exact h.symm
        · exact absurd (ha ▸ List.mem_map_of_mem key h) hnd.1
      rw [List.find?_cons]
      simp [ha, ham]
    · have hmt : m ∈ t := by
        rcases List.mem_cons.mp hm with h | h
        · exact absurd (congrArg key h.symm) ha
        · exact h
      have hne : (key a == key m) = false := by simpa using ha
      rw [List.find?_cons, hne]
      exact ih hmt hnd.2

/-! ### Sample data used by closed counterexamples and witnesses -/

/-- A sample account row. -/
def mkUser (plan status : String) (usage : Nat) : User :=
  { id := "u1", calendarConnected := true, googleAccessToken := some "tokA",
    googleRefreshToken := some "tokR", googleTokenExpiry := 2000000,
    currentPlan := plan, subscriptionStatus := status, meetingsThisMonth := usage,
    botName := none, botImageUrl := none }

/-- A sample account used by the concrete scenarios. -/
def sampleUser : User := mkUser "pro" "active" 0

/-- A sample calendar-origin meeting row owned by `sampleUser`. -/
def sampleMeeting : Meeting :=
  { id := "m1", calendarEventId := some "evX", userId := "u1", title := "standup",
    description := none, meetingUrl := some "https://meet/x", startTime := 100,
    endTime := 200, attendees := none, isFromCalendar := true, botScheduled := true,
    botSent := false, botId := none, botJoinedAt := none }

/-- The provider event matching `sampleMeeting`. -/
def sampleEvent : GoogleEvent :=
  { id := "evX", status := none, summary := some "standup", description := none,
    hangoutLink := some "https://meet/x", conferenceData := none,
    startDateTime := some 100, endDateTime := 200, attendees := none }

/-! ### Quota evaluator (claims C4 and C10) -/

theorem quota_allowed_iff (u : User) :
    (canUserScheduleMeeting u).allowed = true ↔
      (u.currentPlan ≠ "free" ∧ u.subscriptionStatus = "active" ∧
       (planLimit u.currentPlan = -1 ∨ (u.meetingsThisMonth : Int) < planLimit u.currentPlan)) := by
  unfold canUserScheduleMeeting
  by_cases h1 : u.currentPlan = "free"
  · simp [h1]
  · by_cases h2 : u.subscriptionStatus = "active"
    · by_cases h3 : planLimit u.currentPlan = -1
      · simp [h1, h2, h3]
      · by_cases h4 : (u.meetingsThisMonth : Int) ≥ planLimit u.currentPlan
        · simp [h1, h2, h3, h4]
        · simp [h1, h2, h3, h4]
          omega
    · simp [h1, h2]

/-- C4: the quota evaluator is a total function of (tier, subscription-active,
usage) that denies for the free tier regardless of usage, denies for an
inactive subscription regardless of tier, denies when the tier's finite cap
(free 0, starter 10, pro 30) is met or exceeded, and allows otherwise, with
premium uncapped; in particular starter with usage 10 is denied and with
usage 9 (active) is allowed. -/
theorem c4_quota_evaluator_correct (u : User) :
    ((u.currentPlan = "free" → (canUserScheduleMeeting u).allowed = false) ∧
     (u.subscriptionStatus ≠ "active" → (canUserScheduleMeeting u).allowed = false) ∧
     (u.currentPlan = "starter" → 10 ≤ u.meetingsThisMonth →
       (canUserScheduleMeeting u).allowed = false) ∧
     (u.currentPlan = "pro" → 30 ≤ u.meetingsThisMonth →
       (canUserScheduleMeeting u).allowed = false)) ∧
    ((u.subscriptionStatus = "active" → u.currentPlan = "starter" →
       u.meetingsThisMonth < 10 → (canUserScheduleMeeting u).allowed = true) ∧
     (u.subscriptionStatus = "active" → u.currentPlan = "pro" →
       u.meetingsThisMonth < 30 → (canUserScheduleMeeting u).allowed = true) ∧
     (u.subscriptionStatus = "active" → u.currentPlan = "premium" →
       (canUserScheduleMeeting u).allowed = true)) := by
  have hiff := quota_allowed_iff u
  constructor
  · refine ⟨?_, ?_, ?_, ?_⟩
    · intro h
      cases hca : (canUserScheduleMeeting u).allowed
      · rfl
      · exact absurd (hiff.mp hca).1 (by simp [h])
    · intro h
      cases hca : (canUserScheduleMeeting u).allowed
      · rfl
      · exact absurd (hiff.mp hca).2.1 h
    · intro h hu
      cases hca : (canUserScheduleMeeting u).allowed
      · rfl
      · rcases (hiff.mp hca).2.2 with hl | hl <;> rw [h] at hl <;>
          simp [planLimit] at hl <;> omega
    · intro h hu
      cases hca : (canUserScheduleMeeting u).allowed
      · rfl
      · rcases (hiff.mp hca).2.2 with hl | hl <;> rw [h] at hl <;>
          simp [planLimit] at hl <;> omega
  · refine ⟨?_, ?_, ?_⟩
    · intro hs hp hu
      refine hiff.mpr ⟨by simp [hp], hs, Or.inr ?_⟩
      rw [hp]
      simp [planLimit]
      omega
    · intro hs hp hu
      refine hiff.mpr ⟨by simp [hp], hs, Or.inr ?_⟩
      rw [hp]
      simp [planLimit]
      omega
    · intro hs hp
      exact hiff.mpr ⟨by simp [hp], hs, Or.inl (by rw [hp]; rfl)⟩

/-- Witness for C4: starter with usage 10 is denied, with usage 9 allowed. -/
theorem c4_quota_evaluator_correct_witness :
    (canUserScheduleMeeting (mkUser "starter" "active" 10)).allowed = false ∧
    (canUserScheduleMeeting (mkUser "starter" "active" 9)).allowed = true :=
  ⟨(c4_quota_evaluator_correct (mkUser "starter" "active" 10)).1.2.2.1 rfl (by decide),
   (c4_quota_evaluator_correct (mkUser "starter" "active" 9)).2.1 rfl rfl (by decide)⟩

/-- C10: an unknown plan tier falls back to the free cap of 0, so the
evaluator denies regardless of usage even for an active subscription. -/
theorem c10_unknown_tier_denied (u : User)
    (h : u.currentPlan ≠ "free" ∧ u.currentPlan ≠ "starter" ∧
         u.currentPlan ≠ "pro" ∧ u.currentPlan ≠ "premium") :
    (canUserScheduleMeeting u).allowed = false := by
  obtain ⟨hf, hs, hp, hm⟩ := h
  cases hca : (canUserScheduleMeeting u).allowed
  · rfl
  · exfalso
    obtain ⟨_, _, hlim⟩ := (quota_allowed_iff u).mp hca
    have hl : planLimit u.currentPlan = 0 := by
      simp [planLimit, hf, hs, hp, hm]
    rcases hlim with h | h <;> rw [hl] at h
    · exact absurd h (by decide)
    · omega

/-- Witness for C10: plan "gold" with an active subscription and zero usage
is denied. -/
theorem c10_unknown_tier_denied_witness :
    (canUserScheduleMeeting (mkUser "gold" "active" 0)).allowed = false :=
  c10_unknown_tier_denied (mkUser "gold" "active" 0) (by decide)

/-! ### Claim C1: stale-record deletion (code bug) -/

/-- C1 (code bug evaluation): after a successful fetch returning no events,
the account's stale upcoming calendar-origin record survives reconciliation.
`handleDeletedEventFromDB` is declared with a single `dbEvent` parameter but
called as `handleDeletedEventFromDB(user, deletedEvent)`, so it deletes the
meeting whose id equals the account id; no such row exists, the store throws,
and the stale row `sampleMeeting` is never deleted, contrary to the claim. -/
theorem c1_stale_record_survives :
    (syncUserCalendar sampleUser .noToken (.ok []) 0
        { users := [sampleUser], meetings := [sampleMeeting] }).meetings =
      [sampleMeeting] := by decide

/-! ### Claim C2: bot-toggle disable vs reconciliation (corrected) -/

/-- C2 counterexample: the account disables the bot via the toggle route on a
record with `botSent = false`; the next reconciliation update resets
`botScheduled` to true, because the source preserves the flag only when
`botSent` is true. The claim as stated (preserved whatever the value of
bot-sent) is false at this input. -/
theorem c2_counterexample :
    (findMeetingByEventId
        (processEvent sampleUser sampleEvent
          (botToggle { users := [sampleUser], meetings := [sampleMeeting] } "m1" "u1" false))
        "evX").map Meeting.botScheduled = some true := by decide

/-! ### Claim C3: credential-refresh failure handling (corrected) -/

/-- C3 counterexample: with a refresh credential present and an exchange
response lacking an access token, the source clears only the connected flag;
the stored access credential survives, contrary to the claim that every
failure outcome clears both. -/
theorem c3_counterexample :
    (refreshGoogleToken sampleUser .noToken 0
        { users := [sampleUser], meetings := [] }).2.users =
      [{ sampleUser with calendarConnected := false }] ∧
    sampleUser.googleAccessToken = some "tokA" := by decide

/-! ### Lookup-after-update lemmas -/

theorem find?_update {α : Type} (l : List α) (p : α → Bool) (f : α → α)
    (hpf : ∀ a, p (f a) = p a) :
    (l.map fun a => if p a then f a else a).find? p = (l.find? p).map f := by
  have hp : ∀ a, p (if p a then f a else a) = p a := by
    intro a
    by_cases h : p a <;> simp [h, hpf]
  rw [find?_map_pres _ _ _ hp]
  cases hf : l.find? p with
  | none => rfl
  | some a => simp [List.find?_some hf]

theorem findUserById_updateUserById (db : DB) (uid : String) (f : User → User)
    (hf : ∀ v, (f v).id = v.id) :
    findUserById (updateUserById db uid f) uid = (findUserById db uid).map f := by
  unfold findUserById updateUserById
  exact find?_update db.users (fun v => v.id == uid) f fun v => by simp [hf v]

theorem findMeetingById_updateMeetingById (db : DB) (mid : String)
    (f : Meeting → Meeting) (hf : ∀ m, (f m).id = m.id) :
    findMeetingById (updateMeetingById db mid f) mid = (findMeetingById db mid).map f := by
  unfold findMeetingById updateMeetingById
  exact find?_update db.meetings (fun m => m.id == mid) f fun m => by simp [hf m]

theorem findMeetingByEventId_update (db : DB) (eid : String)
    (f : Meeting → Meeting) (hf : ∀ m, (f m).calendarEventId = m.calendarEventId) :
    findMeetingByEventId (updateMeetingsByEventId db eid f) eid =
      (findMeetingByEventId db eid).map f := by
  unfold findMeetingByEventId updateMeetingsByEventId
  exact find?_update db.meetings (fun m => m.calendarEventId == some eid) f
    fun m => by simp [hf m]

/-- With unique non-null external-event ids, the lookup by event id returns
the member row carrying that id (list-level form). -/
theorem find?_eventId_of_mem :
    ∀ (l : List Meeting) (m : Meeting) (eid : String),
      (l.filterMap Meeting.calendarEventId).Nodup → m ∈ l →
      m.calendarEventId = some eid →
      l.find? (fun mm => mm.calendarEventId == some eid) = some m := by
  intro l
  induction l with
  | nil =>
    intro m eid _ hm _
    cases hm
  | cons a t ih =>
    intro m eid hnd hm hid
    by_cases hae : a.calendarEventId = some eid
    · have ham : a = m := by
        rcases List.mem_cons.mp hm with h | h
        · exact h.symm
        · exfalso
          rw [List.filterMap_cons_some hae, List.nodup_cons] at hnd
          exact hnd.1 (List.mem_filterMap.mpr ⟨m, h, hid⟩)
      have hp : (a.calendarEventId == some eid) = true := by simpa using hae
      rw [List.find?_cons, hp]
      exact congrArg some ham
    · have hmt : m ∈ t := by
        rcases List.mem_cons.mp hm with h | h
        · exact absurd (h ▸ hid) hae
        · exact h
      have hndt : (t.filterMap Meeting.calendarEventId).Nodup := by
        cases ha : a.calendarEventId with
        | none => rwa [List.filterMap_cons_none ha] at hnd
        | some x =>
          rw [List.filterMap_cons_some ha, List.nodup_cons] at hnd
          exact hnd.2
      have hne : (a.calendarEventId == some eid) = false := by simpa using hae
      rw [List.find?_cons, hne]
      exact ih m eid hndt hmt hid

/-- With unique non-null external-event ids, the `findUnique` lookup returns
the member row carrying that id. -/
theorem findMeetingByEventId_of_mem (db : DB) (m : Meeting) (eid : String)
    (hnd : (db.meetings.filterMap Meeting.calendarEventId).Nodup)
    (hm : m ∈ db.meetings) (hid : m.calendarEventId = some eid) :
    findMeetingByEventId db eid = some m :=
  find?_eventId_of_mem db.meetings m eid hnd hm hid

/-! ### Claim C2 (amended): botScheduled across a reconciliation update -/

theorem processEventUpdate_calendarEventId (e : GoogleEvent) (url : String)
    (st : Int) (b : Bool) (m : Meeting) :
    (processEventUpdate e url st b m).calendarEventId = m.calendarEventId := by
  cases b <;> rfl

theorem processEventUpdate_botSent (e : GoogleEvent) (url : String)
    (st : Int) (b : Bool) (m : Meeting) :
    (processEventUpdate e url st b m).botSent = m.botSent := by
  cases b <;> rfl

theorem processEventUpdate_id (e : GoogleEvent) (url : String)
    (st : Int) (b : Bool) (m : Meeting) :
    (processEventUpdate e url st b m).id = m.id := by
  cases b <;> rfl

theorem processEventUpdate_botScheduled (e : GoogleEvent) (url : String)
    (st : Int) (b : Bool) (m : Meeting) :
    (processEventUpdate e url st b m).botScheduled =
      if b then m.botScheduled else true := by
  cases b <;> rfl

/-- C2 (amended): a reconciliation update preserves the stored bot-scheduled
flag exactly when bot-sent is true on the existing row; when bot-sent is
false the normalizer default resets the flag to true, so an account's
disable survives reconciliation only after the bot has been sent. -/
theorem c2_botScheduled_update (user : User) (e : GoogleEvent) (db : DB)
    (m : Meeting) (url : String) (st : Int)
    (hnd : (db.meetings.filterMap Meeting.calendarEventId).Nodup)
    (hm : m ∈ db.meetings) (hid : m.calendarEventId = some e.id)
    (hu : extractMeetingUrl e = some url) (hs : e.startDateTime = some st) :
    (findMeetingByEventId (processEvent user e db) e.id).map Meeting.botScheduled =
      some (if m.botSent then m.botScheduled else true) := by
  have hfind := findMeetingByEventId_of_mem db m e.id hnd hm hid
  unfold processEvent
  rw [hu, hs, hfind]
  rw [findMeetingByEventId_update db e.id _
    (fun mm => processEventUpdate_calendarEventId e url st m.botSent mm)]
  rw [hfind]
  simp [processEventUpdate_botScheduled]

/-- Witness for C2 (amended): a record with bot-sent true keeps its disabled
flag through a reconciliation update. -/
theorem c2_botScheduled_update_witness :
    (findMeetingByEventId
        (processEvent sampleUser sampleEvent
          { users := [sampleUser],
            meetings := [{ sampleMeeting with botSent := true, botScheduled := false }] })
        "evX").map Meeting.botScheduled = some false := by
  have h := c2_botScheduled_update sampleUser sampleEvent
    { users := [sampleUser],
      meetings := [{ sampleMeeting with botSent := true, botScheduled := false }] }
    { sampleMeeting with botSent := true, botScheduled := false }
    "https://meet/x" 100 (by decide) (by decide) (by decide) (by decide) (by decide)
  simpa using h

/-! ### Claim C3 (amended): credential-refresh outcomes -/

/-- C3 (amended): every failure outcome of the refresh path clears the
connected flag and returns "unavailable", but only the missing-refresh-
credential path also clears the stored access credential; the exchange-
failure and thrown-error paths leave the stored access credential in place.
On success the new credential and an expiry of now plus the reported
lifetime are persisted and the credential is returned. -/
theorem c3_refresh_outcomes (u : User) (exch : ExchangeResult) (now : Int)
    (db : DB) (hfind : findUserById db u.id = some u) :
    (u.googleRefreshToken = none →
      (refreshGoogleToken u exch now db).1 = none ∧
      findUserById (refreshGoogleToken u exch now db).2 u.id =
        some { u with calendarConnected := false, googleAccessToken := none }) ∧
    (u.googleRefreshToken ≠ none → (exch = .noToken ∨ exch = .threw) →
      (refreshGoogleToken u exch now db).1 = none ∧
      findUserById (refreshGoogleToken u exch now db).2 u.id =
        some { u with calendarConnected := false }) ∧
    (∀ tok life, u.googleRefreshToken ≠ none → exch = .ok tok life →
      (refreshGoogleToken u exch now db).1 = some tok ∧
      findUserById (refreshGoogleToken u exch now db).2 u.id =
        some { u with googleAccessToken := some tok,
                      googleTokenExpiry := now + life * 1000 }) := by
  refine ⟨?_, ?_, ?_⟩
  · intro hrt
    simp only [refreshGoogleToken, hrt]
    refine ⟨trivial, ?_⟩
    rw [findUserById_updateUserById db u.id
      (fun v => { v with calendarConnected := false, googleAccessToken := none })
      (fun v => rfl), hfind]
    simp [hrt]
  · intro hrt hex
    cases hrtv : u.googleRefreshToken with
    | none => exact absurd hrtv hrt
    | some r =>
      rcases hex with hex | hex <;>
        (subst hex
         simp only [refreshGoogleToken, hrtv]
         refine ⟨trivial, ?_⟩
         rw [findUserById_updateUserById db u.id
           (fun v => { v with calendarConnected := false })
           (fun v => rfl), hfind]
         simp [hrtv])
  · intro tok life hrt hex
    subst hex
    cases hrtv : u.googleRefreshToken with
    | none => exact absurd hrtv hrt
    | some r =>
      simp only [refreshGoogleToken, hrtv]
      refine ⟨trivial, ?_⟩
      rw [findUserById_updateUserById db u.id
        (fun v => { v with googleAccessToken := some tok,
                           googleTokenExpiry := now + life * 1000 })
        (fun v => rfl), hfind]
      simp [hrtv]

/-- Witness for C3 (amended): concrete account, exchange response missing the
token — connected flag cleared, access credential retained, result
"unavailable". -/
theorem c3_refresh_outcomes_witness :
    (refreshGoogleToken sampleUser .noToken 0
        { users := [sampleUser], meetings := [] }).1 = none ∧
    findUserById (refreshGoogleToken sampleUser .noToken 0
        { users := [sampleUser], meetings := [] }).2 "u1" =
      some { sampleUser with calendarConnected := false } := by
  have h := (c3_refresh_outcomes sampleUser .noToken 0
    { users := [sampleUser], meetings := [] } (by decide)).2.1
    (by decide) (Or.inl rfl)
  simpa using h

/-! ### Claim C8: normalizer convergence -/

theorem filter_map_pres_length {α : Type} (l : List α) (f : α → α) (p : α → Bool)
    (h : ∀ a, p (f a) = p a) :
    ((l.map f).filter p).length = (l.filter p).length := by
  induction l with
  | nil => rfl
  | cons a t ih =>
    rw [List.map_cons, List.filter_cons, List.filter_cons, h a]
    cases p a <;> simp [ih]

/-- C8: a non-cancelled fetched event with a join URL and a start time is
stored as exactly one MeetingRecord with the normalized fields (placeholder
title when the title is absent, null attendees when attendee data is absent);
when a record for the event already exists it is updated in place, keeping
the per-event record count; an event missing the join URL or the start time
is never stored. -/
theorem c8_normalizer_convergence (user : User) (e : GoogleEvent) (db : DB) :
    (∀ url st, extractMeetingUrl e = some url → e.startDateTime = some st →
      findMeetingByEventId db e.id = none →
      processEvent user e db =
        { db with meetings := db.meetings ++ [newMeetingRecord user e url st] } ∧
      ((processEvent user e db).meetings.filter
          (fun m => m.calendarEventId == some e.id)).length = 1 ∧
      (newMeetingRecord user e url st).title =
        (match e.summary with | some t => t | none => "Untitled Meeting") ∧
      (newMeetingRecord user e url st).attendees =
        (match e.attendees with
         | some l => some (l.map Attendee.email)
         | none => none) ∧
      (newMeetingRecord user e url st).meetingUrl = some url ∧
      (newMeetingRecord user e url st).startTime = st ∧
      (newMeetingRecord user e url st).endTime = e.endDateTime ∧
      (newMeetingRecord user e url st).description = e.description ∧
      (newMeetingRecord user e url st).isFromCalendar = true ∧
      (newMeetingRecord user e url st).botScheduled = true) ∧
    (∀ url st ex, extractMeetingUrl e = some url → e.startDateTime = some st →
      findMeetingByEventId db e.id = some ex →
      findMeetingByEventId (processEvent user e db) e.id =
        some (processEventUpdate e url st ex.botSent ex) ∧
      ((processEvent user e db).meetings.filter
          (fun m => m.calendarEventId == some e.id)).length =
        (db.meetings.filter (fun m => m.calendarEventId == some e.id)).length ∧
      (processEventUpdate e url st ex.botSent ex).title =
        (match e.summary with | some t => t | none => "Untitled Meeting") ∧
      (processEventUpdate e url st ex.botSent ex).attendees =
        (match e.attendees with
         | some l => some (l.map Attendee.email)
         | none => none) ∧
      (processEventUpdate e url st ex.botSent ex).meetingUrl = some url ∧
      (processEventUpdate e url st ex.botSent ex).startTime = st) ∧
    ((extractMeetingUrl e = none ∨ e.startDateTime = none) →
      processEvent user e db = db) := by
  refine ⟨?_, ?_, ?_⟩
  · intro url st hu hs hnone
    have hproc : processEvent user e db =
        { db with meetings := db.meetings ++ [newMeetingRecord user e url st] } := by
      unfold processEvent
      rw [hu, hs, hnone]
    refine ⟨hproc, ?_, rfl, ?_, rfl, rfl, rfl, rfl, rfl, rfl⟩
    · rw [hproc]
      have hnil : db.meetings.filter (fun m => m.calendarEventId == some e.id) = [] := by
        rw [List.filter_eq_nil_iff]
        intro a ha
        have := List.find?_eq_none.mp hnone a ha
        simpa using this
      simp [List.filter_append, hnil, newMeetingRecord]
    · unfold newMeetingRecord evAttendees
      cases e.attendees <;> rfl
  · intro url st ex hu hs hex
    have hproc : processEvent user e db =
        updateMeetingsByEventId db e.id (processEventUpdate e url st ex.botSent) := by
      unfold processEvent
      rw [hu, hs, hex]
    refine ⟨?_, ?_, ?_, ?_, ?_, ?_⟩
    · rw [hproc,
        findMeetingByEventId_update db e.id _
          (fun mm => processEventUpdate_calendarEventId e url st ex.botSent mm),
        hex]
      rfl
    · rw [hproc]
      unfold updateMeetingsByEventId
      exact filter_map_pres_length db.meetings _ _ fun a => by
        by_cases hpa : (a.calendarEventId == some e.id) = true <;>
          simp [hpa, processEventUpdate_calendarEventId]
    · cases hb : ex.botSent <;> rfl
    · cases hb : ex.botSent <;> (unfold processEventUpdate evAttendees; cases e.attendees <;> simp)
    · cases hb : ex.botSent <;> rfl
    · cases hb : ex.botSent <;> rfl
  · intro h
    unfold processEvent
    rcases h with h | h
    · rw [h]
    · rw [h]
      cases hx : extractMeetingUrl e <;> rfl

/-- Witness for C8: the sample event is stored once with its normalized
fields; the same event without any conferencing link is never stored. -/
theorem c8_normalizer_convergence_witness :
    processEvent sampleUser sampleEvent { users := [sampleUser], meetings := [] } =
      { users := [sampleUser],
        meetings := [newMeetingRecord sampleUser sampleEvent "https://meet/x" 100] } ∧
    processEvent sampleUser
      { sampleEvent with hangoutLink := none }
      { users := [sampleUser], meetings := [] } =
      { users := [sampleUser], meetings := [] } :=
  ⟨((c8_normalizer_convergence sampleUser sampleEvent
      { users := [sampleUser], meetings := [] }).1 "https://meet/x" 100
      rfl rfl (by decide)).1,
   (c8_normalizer_convergence sampleUser { sampleEvent with hangoutLink := none }
      { users := [sampleUser], meetings := [] }).2.2 (Or.inl rfl)⟩

/-! ### Dispatcher step characterization -/

theorem dispatchStep_none (now : Int) (baas : String → BotApiResult)
    (acc : DispatchOutcome) (m' : Meeting) :
    dispatchStep now baas acc (m', none) = acc := rfl

theorem dispatchStep_deny (now : Int) (baas : String → BotApiResult)
    (acc : DispatchOutcome) (m' : Meeting) (u : User)
    (hq : (canUserScheduleMeeting u).allowed = false) :
    dispatchStep now baas acc (m', some u) =
      { acc with db := updateMeetingById acc.db m'.id fun mm =>
          { mm with botSent := true, botJoinedAt := some now } } := by
  simp [dispatchStep, hq]

theorem dispatchStep_fail (now : Int) (baas : String → BotApiResult)
    (acc : DispatchOutcome) (m' : Meeting) (u : User)
    (hq : (canUserScheduleMeeting u).allowed = true)
    (hb : baas m'.id = .httpError) :
    dispatchStep now baas acc (m', some u) =
      { acc with calls := acc.calls ++ [m'.id] } := by
  simp [dispatchStep, hq, hb]

theorem dispatchStep_ok (now : Int) (baas : String → BotApiResult)
    (acc : DispatchOutcome) (m' : Meeting) (u : User) (bid : String)
    (hq : (canUserScheduleMeeting u).allowed = true)
    (hb : baas m'.id = .ok bid) :
    dispatchStep now baas acc (m', some u) =
      { db := incrementMeetingUsage m'.userId (updateMeetingById acc.db m'.id fun mm =>
          { mm with botSent := true, botId := some bid, botJoinedAt := some now })
        calls := acc.calls ++ [m'.id] } := by
  simp [dispatchStep, hq, hb]

/-! ### Frame lemmas for the dispatcher fold -/

theorem findMeetingById_self (db : DB) (m : Meeting)
    (hnd : (db.meetings.map Meeting.id).Nodup) (hm : m ∈ db.meetings) :
    findMeetingById db m.id = some m :=
  find?_key_nodup Meeting.id db.meetings m hm hnd

theorem findMeetingById_update_ne (db : DB) (mid x : String) (f : Meeting → Meeting)
    (hx : x ≠ mid) (hf : ∀ m, (f m).id = m.id) :
    findMeetingById (updateMeetingById db mid f) x = findMeetingById db x := by
  unfold findMeetingById updateMeetingById
  apply find?_map_fix
  · intro a
    by_cases h : (a.id == mid) = true <;> simp [h, hf]
  · intro a ha
    have hax : a.id = x := by simpa using ha
    have : (a.id == mid) = false := by simp [hax, hx]
    simp [this]

theorem findUserById_update_ne (db : DB) (uid y : String) (f : User → User)
    (hy : y ≠ uid) (hf : ∀ v, (f v).id = v.id) :
    findUserById (updateUserById db uid f) y = findUserById db y := by
  unfold findUserById updateUserById
  apply find?_map_fix
  · intro a
    by_cases h : (a.id == uid) = true <;> simp [h, hf]
  · intro a ha
    have hay : a.id = y := by simpa using ha
    have : (a.id == uid) = false := by simp [hay, hy]
    simp [this]

theorem findMeetingById_updateUserById (db : DB) (uid : String) (f : User → User)
    (x : String) :
    findMeetingById (updateUserById db uid f) x = findMeetingById db x := rfl

theorem findUserById_updateMeetingById (db : DB) (mid : String)
    (f : Meeting → Meeting) (y : String) :
    findUserById (updateMeetingById db mid f) y = findUserById db y := rfl

theorem dispatchStep_find_meeting_ne (now : Int) (baas : String → BotApiResult)
    (acc : DispatchOutcome) (sel : Meeting × Option User) (x : String)
    (hx : x ≠ sel.1.id) :
    findMeetingById (dispatchStep now baas acc sel).db x = findMeetingById acc.db x := by
  rcases sel with ⟨mm, uo⟩
  cases uo with
  | none => rfl
  | some u =>
    cases hq : (canUserScheduleMeeting u).allowed with
    | false =>
      rw [dispatchStep_deny now baas acc mm u hq]
      exact findMeetingById_update_ne acc.db mm.id x _ hx fun m => rfl
    | true =>
      cases hb : baas mm.id with
      | httpError => rw [dispatchStep_fail now baas acc mm u hq hb]
      | ok bid =>
        rw [dispatchStep_ok now baas acc mm u bid hq hb]
        show findMeetingById (updateMeetingById acc.db mm.id _) x = _
        exact findMeetingById_update_ne acc.db mm.id x _ hx fun m => rfl

theorem dispatchStep_find_user_ne (now : Int) (baas : String → BotApiResult)
    (acc : DispatchOutcome) (sel : Meeting × Option User) (y : String)
    (hy : y ≠ sel.1.userId) :
    findUserById (dispatchStep now baas acc sel).db y = findUserById acc.db y := by
  rcases sel with ⟨mm, uo⟩
  cases uo with
  | none => rfl
  | some u =>
    cases hq : (canUserScheduleMeeting u).allowed with
    | false =>
      rw [dispatchStep_deny now baas acc mm u hq]
      rfl
    | true =>
      cases hb : baas mm.id with
      | httpError => rw [dispatchStep_fail now baas acc mm u hq hb]
      | ok bid =>
        rw [dispatchStep_ok now baas acc mm u bid hq hb]
        show findUserById (updateUserById (updateMeetingById acc.db mm.id _) mm.userId
          fun v => { v with meetingsThisMonth := v.meetingsThisMonth + 1 }) y = _
        rw [findUserById_update_ne _ mm.userId y
          (fun v => { v with meetingsThisMonth := v.meetingsThisMonth + 1 })
          hy fun v => rfl]
        rfl

theorem dispatchStep_calls_not_mem (now : Int) (baas : String → BotApiResult)
    (acc : DispatchOutcome) (sel : Meeting × Option User) (x : String)
    (hx1 : x ∉ acc.calls) (hx2 : x ≠ sel.1.id) :
    x ∉ (dispatchStep now baas acc sel).calls := by
  rcases sel with ⟨mm, uo⟩
  cases uo with
  | none => exact hx1
  | some u =>
    cases hq : (canUserScheduleMeeting u).allowed with
    | false =>
      rw [dispatchStep_deny now baas acc mm u hq]
      exact hx1
    | true =>
      cases hb : baas mm.id with
      | httpError =>
        rw [dispatchStep_fail now baas acc mm u hq hb]
        simp [hx1, hx2]
      | ok bid =>
        rw [dispatchStep_ok now baas acc mm u bid hq hb]
        simp [hx1, hx2]

theorem dispatchStep_calls_mem (now : Int) (baas : String → BotApiResult)
    (acc : DispatchOutcome) (sel : Meeting × Option User) (x : String)
    (hx : x ∈ acc.calls) :
    x ∈ (dispatchStep now baas acc sel).calls := by
  rcases sel with ⟨mm, uo⟩
  cases uo with
  | none => exact hx
  | some u =>
    cases hq : (canUserScheduleMeeting u).allowed with
    | false =>
      rw [dispatchStep_deny now baas acc mm u hq]
      exact hx
    | true =>
      cases hb : baas mm.id with
      | httpError =>
        rw [dispatchStep_fail now baas acc mm u hq hb]
        simp [hx]
      | ok bid =>
        rw [dispatchStep_ok now baas acc mm u bid hq hb]
        simp [hx]

theorem dispatchFold_find_meeting_ne (now : Int) (baas : String → BotApiResult)
    (x : String) :
    ∀ (entries : List (Meeting × Option User)) (acc : DispatchOutcome),
      (∀ p ∈ entries, x ≠ p.1.id) →
      findMeetingById ((entries.foldl (dispatchStep now baas) acc)).db x =
        findMeetingById acc.db x := by
  intro entries
  induction entries with
  | nil => intro acc _; rfl
  | cons p rest ih =>
    intro acc h
    rw [List.foldl_cons, ih _ fun q hq => h q (List.mem_cons_of_mem p hq),
      dispatchStep_find_meeting_ne now baas acc p x (h p (List.mem_cons_self p rest))]

theorem dispatchFold_find_user_ne (now : Int) (baas : String → BotApiResult)
    (y : String) :
    ∀ (entries : List (Meeting × Option User)) (acc : DispatchOutcome),
      (∀ p ∈ entries, y ≠ p.1.userId) →
      findUserById ((entries.foldl (dispatchStep now baas) acc)).db y =
        findUserById acc.db y := by
  intro entries
  induction entries with
  | nil => intro acc _; rfl
  | cons p rest ih =>
    intro acc h
    rw [List.foldl_cons, ih _ fun q hq => h q (List.mem_cons_of_mem p hq),
      dispatchStep_find_user_ne now baas acc p y (h p (List.mem_cons_self p rest))]

theorem dispatchFold_calls_not_mem (now : Int) (baas : String → BotApiResult)
    (x : String) :
    ∀ (entries : List (Meeting × Option User)) (acc : DispatchOutcome),
      x ∉ acc.calls → (∀ p ∈ entries, x ≠ p.1.id) →
      x ∉ ((entries.foldl (dispatchStep now baas) acc)).calls := by
  intro entries
  induction entries with
  | nil => intro acc h _; exact h
  | cons p rest ih =>
    intro acc h hall
    rw [List.foldl_cons]
    exact ih _ (dispatchStep_calls_not_mem now baas acc p x h
        (hall p (List.mem_cons_self p rest)))
      fun q hq => hall q (List.mem_cons_of_mem p hq)

theorem dispatchFold_calls_mem (now : Int) (baas : String → BotApiResult)
    (x : String) :
    ∀ (entries : List (Meeting × Option User)) (acc : DispatchOutcome),
      x ∈ acc.calls →
      x ∈ ((entries.foldl (dispatchStep now baas) acc)).calls := by
  intro entries
  induction entries with
  | nil => intro acc h; exact h
  | cons p rest ih =>
    intro acc h
    rw [List.foldl_cons]
    exact ih _ (dispatchStep_calls_mem now baas acc p x h)

/-- Decompose the dispatcher's selection around one eligible meeting with a
unique id: the entries before and after it carry different meeting ids and
are themselves eligible members of the store. -/
theorem selectUpcoming_split (db : DB) (now : Int) (m : Meeting)
    (hnd : (db.meetings.map Meeting.id).Nodup)
    (hm : m ∈ db.meetings) (he : eligibleMeeting now m = true) :
    ∃ s t, selectUpcoming now db =
        s ++ (m, db.users.find? fun u => u.id == m.userId) :: t ∧
      (∀ p ∈ s, p.1.id ≠ m.id ∧ p.1 ∈ db.meetings ∧ eligibleMeeting now p.1 = true) ∧
      (∀ p ∈ t, p.1.id ≠ m.id ∧ p.1 ∈ db.meetings ∧ eligibleMeeting now p.1 = true) := by
  have hmf : m ∈ db.meetings.filter (eligibleMeeting now) :=
    List.mem_filter.mpr ⟨hm, he⟩
  obtain ⟨s0, t0, hsplit⟩ := List.append_of_mem hmf
  have hsub : (db.meetings.filter (eligibleMeeting now)).Sublist db.meetings :=
    List.filter_sublist db.meetings
  have hndf : ((db.meetings.filter (eligibleMeeting now)).map Meeting.id).Nodup :=
    List.Nodup.sublist (hsub.map Meeting.id) hnd
  rw [hsplit] at hndf
  rw [List.map_append, List.map_cons] at hndf
  have hd := List.Nodup.of_append_right hndf
  rw [List.nodup_cons] at hd
  have hdisj := (List.nodup_append.mp hndf).2.2
  refine ⟨s0.map fun mm => (mm, db.users.find? fun u => u.id == mm.userId),
          t0.map fun mm => (mm, db.users.find? fun u => u.id == mm.userId), ?_, ?_, ?_⟩
  · unfold selectUpcoming
    rw [hsplit, List.map_append, List.map_cons]
  · intro p hp
    obtain ⟨mm, hmm, rfl⟩ := List.mem_map.mp hp
    have hmm2 : mm ∈ db.meetings.filter (eligibleMeeting now) := by
      rw [hsplit]
      exact List.mem_append_left _ hmm
    refine ⟨?_, (List.mem_filter.mp hmm2).1, (List.mem_filter.mp hmm2).2⟩
    intro hidm
    exact hdisj (List.mem_map_of_mem Meeting.id hmm) (List.mem_cons.mpr (Or.inl hidm))
  · intro p hp
    obtain ⟨mm, hmm, rfl⟩ := List.mem_map.mp hp
    have hmm2 : mm ∈ db.meetings.filter (eligibleMeeting now) := by
      rw [hsplit]
      exact List.mem_append_right _ (List.mem_cons_of_mem m hmm)
    refine ⟨?_, (List.mem_filter.mp hmm2).1, (List.mem_filter.mp hmm2).2⟩
    intro hidm
    exact hd.1 (hidm ▸ List.mem_map_of_mem Meeting.id hmm)

/-! ### Bot-sent marking is never cleared by the dispatcher -/

theorem dispatchStep_botSent_preserved (now : Int) (baas : String → BotApiResult)
    (acc : DispatchOutcome) (sel : Meeting × Option User) (X : String)
    (h : ∀ mm ∈ acc.db.meetings, mm.id = X → mm.botSent = true) :
    ∀ mm ∈ (dispatchStep now baas acc sel).db.meetings, mm.id = X → mm.botSent = true := by
  rcases sel with ⟨m', uo⟩
  cases uo with
  | none => exact h
  | some u =>
    cases hq : (canUserScheduleMeeting u).allowed with
    | false =>
      rw [dispatchStep_deny now baas acc m' u hq]
      intro mm hmm hid
      rcases List.mem_map.mp hmm with ⟨a, ha, hEq⟩
      by_cases hc : (a.id == m'.id) = true
      · rw [← hEq]
        simp [hc]
      · have hma : mm = a := by
          rw [← hEq]
          simp [hc]
        rw [hma] at hid ⊢
        exact h a ha hid
    | true =>
      cases hb : baas m'.id with
      | httpError =>
        rw [dispatchStep_fail now baas acc m' u hq hb]
        exact h
      | ok bid =>
        rw [dispatchStep_ok now baas acc m' u bid hq hb]
        intro mm hmm hid
        rcases List.mem_map.mp hmm with ⟨a, ha, hEq⟩
        by_cases hc : (a.id == m'.id) = true
        · rw [← hEq]
          simp [hc]
        · have hma : mm = a := by
            rw [← hEq]
            simp [hc]
          rw [hma] at hid ⊢
          exact h a ha hid

theorem dispatchFold_botSent_preserved (now : Int) (baas : String → BotApiResult)
    (X : String) :
    ∀ (entries : List (Meeting × Option User)) (acc : DispatchOutcome),
      (∀ mm ∈ acc.db.meetings, mm.id = X → mm.botSent = true) →
      ∀ mm ∈ ((entries.foldl (dispatchStep now baas) acc)).db.meetings,
        mm.id = X → mm.botSent = true := by
  intro entries
  induction entries with
  | nil => intro acc h; exact h
  | cons p rest ih =>
    intro acc h
    rw [List.foldl_cons]
    exact ih _ (dispatchStep_botSent_preserved now baas acc p X h)

theorem scheduleBots_botSent_preserved (db : DB) (now : Int)
    (baas : String → BotApiResult) (X : String)
    (h : ∀ mm ∈ db.meetings, mm.id = X → mm.botSent = true) :
    ∀ mm ∈ (scheduleBotsForUpcomingMeetings now baas db).db.meetings,
      mm.id = X → mm.botSent = true := by
  unfold scheduleBotsForUpcomingMeetings
  exact dispatchFold_botSent_preserved now baas X (selectUpcoming now db)
    { db := db, calls := [] } h

/-! ### Claim C5: quota-denied poison pill -/

/-- C5: an eligible meeting whose owner the quota evaluator denies is marked
bot-sent with the bot-joined timestamp set to now by a single dispatcher
pass, the bot-deployment provider is never called for it, the marked record
is ineligible at every later time, and no later dispatcher pass ever clears
the marking. -/
theorem c5_poison_pill (db : DB) (now : Int) (baas : String → BotApiResult)
    (m : Meeting) (u : User)
    (hnd : (db.meetings.map Meeting.id).Nodup)
    (hm : m ∈ db.meetings) (he : eligibleMeeting now m = true)
    (hu : (db.users.find? fun v => v.id == m.userId) = some u)
    (hq : (canUserScheduleMeeting u).allowed = false) :
    findMeetingById (scheduleBotsForUpcomingMeetings now baas db).db m.id =
      some { m with botSent := true, botJoinedAt := some now } ∧
    m.id ∉ (scheduleBotsForUpcomingMeetings now baas db).calls ∧
    (∀ now2, eligibleMeeting now2 { m with botSent := true, botJoinedAt := some now } = false) ∧
    (∀ db2 now2 baas2, (∀ mm ∈ db2.meetings, mm.id = m.id → mm.botSent = true) →
      ∀ mm ∈ (scheduleBotsForUpcomingMeetings now2 baas2 db2).db.meetings,
        mm.id = m.id → mm.botSent = true) := by
  obtain ⟨s, t, hsel, hs, ht⟩ := selectUpcoming_split db now m hnd hm he
  have hrun : scheduleBotsForUpcomingMeetings now baas db =
      t.foldl (dispatchStep now baas)
        { s.foldl (dispatchStep now baas) { db := db, calls := [] } with
          db := updateMeetingById
            (s.foldl (dispatchStep now baas) { db := db, calls := [] }).db m.id
            fun mm => { mm with botSent := true, botJoinedAt := some now } } := by
    unfold scheduleBotsForUpcomingMeetings
    rw [hsel, List.foldl_append, List.foldl_cons, hu,
      dispatchStep_deny now baas _ m u hq]
  refine ⟨?_, ?_, ?_, ?_⟩
  · rw [hrun,
      dispatchFold_find_meeting_ne now baas m.id t _ fun p hp => Ne.symm (ht p hp).1]
    · show findMeetingById (updateMeetingById
        (s.foldl (dispatchStep now baas) { db := db, calls := [] }).db m.id
        fun mm => { mm with botSent := true, botJoinedAt := some now }) m.id = _
      rw [findMeetingById_updateMeetingById _ m.id
          (fun mm => { mm with botSent := true, botJoinedAt := some now })
          fun mm => rfl,
        dispatchFold_find_meeting_ne now baas m.id s _ fun p hp => Ne.symm (hs p hp).1]
      show (findMeetingById db m.id).map _ = _
      rw [findMeetingById_self db m hnd hm]
      rfl
  · rw [hrun]
    exact dispatchFold_calls_not_mem now baas m.id t _
      (dispatchFold_calls_not_mem now baas m.id s { db := db, calls := [] }
        (List.not_mem_nil m.id) fun p hp => Ne.symm (hs p hp).1)
      fun p hp => Ne.symm (ht p hp).1
  · intro now2
    simp [eligibleMeeting]
  · intro db2 now2 baas2 h
    exact scheduleBots_botSent_preserved db2 now2 baas2 m.id h

/-- Witness for C5: a free-tier owner's eligible meeting is marked sent with
no bot-deployment call recorded. -/
theorem c5_poison_pill_witness :
    findMeetingById (scheduleBotsForUpcomingMeetings 0 (fun x => .ok "b1")
        { users := [mkUser "free" "active" 0], meetings := [sampleMeeting] }).db
        sampleMeeting.id =
      some { sampleMeeting with botSent := true, botJoinedAt := some 0 } ∧
    sampleMeeting.id ∉ (scheduleBotsForUpcomingMeetings 0 (fun x => .ok "b1")
        { users := [mkUser "free" "active" 0], meetings := [sampleMeeting] }).calls := by
  have h := c5_poison_pill
    { users := [mkUser "free" "active" 0], meetings := [sampleMeeting] }
    0 (fun x => .ok "b1") sampleMeeting (mkUser "free" "active" 0)
    (by decide) (by decide) (by decide) (by decide) (by decide)
  exact ⟨h.1, h.2.1⟩

/-! ### Claim C6: dispatch failure leaves the record untouched -/

/-- C6: for a quota-allowed eligible meeting whose bot-deployment call
returns non-2xx, the per-meeting step leaves the store entirely unchanged
(record and usage counter) while recording that the call was issued, so the
fold continues with the remaining selected meetings unaffected; after the
whole pass the record is unchanged and still satisfies the eligibility
filter at any time within its window. -/
theorem c6_dispatch_failure_retry (db : DB) (now : Int)
    (baas : String → BotApiResult) (m : Meeting) (u : User)
    (hnd : (db.meetings.map Meeting.id).Nodup)
    (hm : m ∈ db.meetings) (he : eligibleMeeting now m = true)
    (hu : (db.users.find? fun v => v.id == m.userId) = some u)
    (hq : (canUserScheduleMeeting u).allowed = true)
    (hb : baas m.id = .httpError) :
    (∀ acc, dispatchStep now baas acc (m, some u) =
      { acc with calls := acc.calls ++ [m.id] }) ∧
    findMeetingById (scheduleBotsForUpcomingMeetings now baas db).db m.id = some m ∧
    (∀ now2, now2 ≤ m.startTime → m.startTime ≤ now2 + 5 * 60 * 1000 →
      eligibleMeeting now2 m = true) := by
  refine ⟨fun acc => dispatchStep_fail now baas acc m u hq hb, ?_, ?_⟩
  · obtain ⟨s, t, hsel, hs, ht⟩ := selectUpcoming_split db now m hnd hm he
    unfold scheduleBotsForUpcomingMeetings
    rw [hsel, List.foldl_append, List.foldl_cons, hu,
      dispatchStep_fail now baas _ m u hq hb,
      dispatchFold_find_meeting_ne now baas m.id t _ fun p hp => Ne.symm (ht p hp).1]
    show findMeetingById (s.foldl (dispatchStep now baas) { db := db, calls := [] }).db m.id = _
    rw [dispatchFold_find_meeting_ne now baas m.id s _ fun p hp => Ne.symm (hs p hp).1]
    exact findMeetingById_self db m hnd hm
  · intro now2 h1 h2
    have he2 := he
    simp only [eligibleMeeting, Bool.and_eq_true, decide_eq_true_eq] at he2 ⊢
    exact ⟨⟨⟨⟨h1, h2⟩, he2.1.1.2⟩, he2.1.2⟩, he2.2⟩

/-- Witness for C6: a failed deployment call leaves the concrete store
unchanged and the meeting still present, unmodified. -/
theorem c6_dispatch_failure_retry_witness :
    dispatchStep 0 (fun x => .httpError)
        { db := { users := [sampleUser], meetings := [sampleMeeting] }, calls := [] }
        (sampleMeeting, some sampleUser) =
      { db := { users := [sampleUser], meetings := [sampleMeeting] },
        calls := [sampleMeeting.id] } ∧
    findMeetingById (scheduleBotsForUpcomingMeetings 0 (fun x => .httpError)
        { users := [sampleUser], meetings := [sampleMeeting] }).db sampleMeeting.id =
      some sampleMeeting := by
  have h := c6_dispatch_failure_retry
    { users := [sampleUser], meetings := [sampleMeeting] } 0 (fun x => .httpError)
    sampleMeeting sampleUser (by decide) (by decide) (by decide) (by decide)
    (by decide) rfl
  exact ⟨h.1 { db := { users := [sampleUser], meetings := [sampleMeeting] }, calls := [] },
    h.2.1⟩

/-! ### Claim C7: dispatch success marks and counts together -/

/-- C7: for a quota-allowed eligible meeting whose bot-deployment call
succeeds, one dispatcher pass marks the record (bot-sent true, returned bot
id stored, bot-joined timestamp set) and increments the owner's usage
counter by exactly one, and the call is recorded — the marking and the count
land together in the resulting store, never one without the other. -/
theorem c7_dispatch_success_transaction (db : DB) (now : Int)
    (baas : String → BotApiResult) (m : Meeting) (u : User) (bid : String)
    (hnd : (db.meetings.map Meeting.id).Nodup)
    (hm : m ∈ db.meetings) (he : eligibleMeeting now m = true)
    (hu : (db.users.find? fun v => v.id == m.userId) = some u)
    (hq : (canUserScheduleMeeting u).allowed = true)
    (hb : baas m.id = .ok bid)
    (honly : ∀ m2 ∈ db.meetings, eligibleMeeting now m2 = true →
      m2.userId = m.userId → m2 = m) :
    findMeetingById (scheduleBotsForUpcomingMeetings now baas db).db m.id =
      some { m with botSent := true, botId := some bid, botJoinedAt := some now } ∧
    (findUserById (scheduleBotsForUpcomingMeetings now baas db).db m.userId).map
        User.meetingsThisMonth = some (u.meetingsThisMonth + 1) ∧
    m.id ∈ (scheduleBotsForUpcomingMeetings now baas db).calls := by
  obtain ⟨s, t, hsel, hs, ht⟩ := selectUpcoming_split db now m hnd hm he
  have hsu : ∀ p ∈ s, m.userId ≠ p.1.userId := by
    intro p hp hEq
    obtain ⟨hpid, hpm, hpe⟩ := hs p hp
    exact hpid (congrArg Meeting.id (honly p.1 hpm hpe hEq.symm))
  have htu : ∀ p ∈ t, m.userId ≠ p.1.userId := by
    intro p hp hEq
    obtain ⟨hpid, hpm, hpe⟩ := ht p hp
    exact hpid (congrArg Meeting.id (honly p.1 hpm hpe hEq.symm))
  have hrun : scheduleBotsForUpcomingMeetings now baas db =
      t.foldl (dispatchStep now baas)
        { db := incrementMeetingUsage m.userId (updateMeetingById
            (s.foldl (dispatchStep now baas) { db := db, calls := [] }).db m.id
            fun mm => { mm with botSent := true, botId := some bid,
                                botJoinedAt := some now })
          calls := (s.foldl (dispatchStep now baas)
            { db := db, calls := [] }).calls ++ [m.id] } := by
    unfold scheduleBotsForUpcomingMeetings
    rw [hsel, List.foldl_append, List.foldl_cons, hu,
      dispatchStep_ok now baas _ m u bid hq hb]
  refine ⟨?_, ?_, ?_⟩
  · rw [hrun,
      dispatchFold_find_meeting_ne now baas m.id t _ fun p hp => Ne.symm (ht p hp).1]
    show findMeetingById (updateMeetingById
      (s.foldl (dispatchStep now baas) { db := db, calls := [] }).db m.id
      fun mm => { mm with botSent := true, botId := some bid,
                          botJoinedAt := some now }) m.id = _
    rw [findMeetingById_updateMeetingById _ m.id
        (fun mm => { mm with botSent := true, botId := some bid,
                             botJoinedAt := some now })
        fun mm => rfl,
      dispatchFold_find_meeting_ne now baas m.id s _ fun p hp => Ne.symm (hs p hp).1]
    show (findMeetingById db m.id).map _ = _
    rw [findMeetingById_self db m hnd hm]
    rfl
  · rw [hrun, dispatchFold_find_user_ne now baas m.userId t _ htu]
    show (findUserById (updateUserById (updateMeetingById
      (s.foldl (dispatchStep now baas) { db := db, calls := [] }).db m.id
      fun mm => { mm with botSent := true, botId := some bid,
                          botJoinedAt := some now }) m.userId
      fun v => { v with meetingsThisMonth := v.meetingsThisMonth + 1 }) m.userId).map
        User.meetingsThisMonth = _
    rw [findUserById_updateUserById _ m.userId
      (fun v => { v with meetingsThisMonth := v.meetingsThisMonth + 1 })
      fun v => rfl]
    show ((findUserById (s.foldl (dispatchStep now baas)
      { db := db, calls := [] }).db m.userId).map
        (fun v => { v with meetingsThisMonth := v.meetingsThisMonth + 1 })).map
        User.meetingsThisMonth = _
    rw [dispatchFold_find_user_ne now baas m.userId s _ hsu]
    show ((findUserById db m.userId).map _).map User.meetingsThisMonth = _
    rw [show findUserById db m.userId = some u from hu]
    rfl
  · rw [hrun]
    exact dispatchFold_calls_mem now baas m.id t _
      (List.mem_append_right _ (List.mem_cons_self _ _))

/-- Witness for C7 (spec Scenario A): pro tier at usage 29 — dispatch
succeeds, the record is marked with bot id "b1", usage becomes 30, and the
call is recorded. -/
theorem c7_dispatch_success_transaction_witness :
    findMeetingById (scheduleBotsForUpcomingMeetings 0 (fun x => .ok "b1")
        { users := [mkUser "pro" "active" 29], meetings := [sampleMeeting] }).db
        sampleMeeting.id =
      some { sampleMeeting with botSent := true, botId := some "b1",
                                botJoinedAt := some 0 } ∧
    (findUserById (scheduleBotsForUpcomingMeetings 0 (fun x => .ok "b1")
        { users := [mkUser "pro" "active" 29], meetings := [sampleMeeting] }).db
        sampleMeeting.userId).map User.meetingsThisMonth = some 30 ∧
    sampleMeeting.id ∈ (scheduleBotsForUpcomingMeetings 0 (fun x => .ok "b1")
        { users := [mkUser "pro" "active" 29], meetings := [sampleMeeting] }).calls := by
  have h := c7_dispatch_success_transaction
    { users := [mkUser "pro" "active" 29], meetings := [sampleMeeting] }
    0 (fun x => .ok "b1") sampleMeeting (mkUser "pro" "active" 29) "b1"
    (by decide) (by decide) (by decide) (by decide) (by decide) rfl (by decide)
  exact ⟨h.1, h.2.1, h.2.2⟩

/-! ### Reconciliation step lemmas (claim C9) -/

theorem handleDeletedEvent_subset (e : GoogleEvent) (db : DB) :
    ∀ mm ∈ (handleDeletedEvent e db).meetings, mm ∈ db.meetings := by
  unfold handleDeletedEvent
  cases hf : findMeetingByEventId db e.id with
  | none => exact fun mm hmm => hmm
  | some a => exact fun mm hmm => List.mem_of_mem_filter hmm

theorem handleDeletedEvent_keeps (e : GoogleEvent) (db : DB) (mm : Meeting)
    (hmm : mm ∈ db.meetings) (hcid : mm.calendarEventId ≠ some e.id) :
    mm ∈ (handleDeletedEvent e db).meetings := by
  unfold handleDeletedEvent
  cases hf : findMeetingByEventId db e.id with
  | none => exact hmm
  | some a =>
    refine List.mem_filter.mpr ⟨hmm, ?_⟩
    simp [hcid]

theorem handleDeletedEvent_noEvt (e : GoogleEvent) (db : DB) :
    ∀ mm ∈ (handleDeletedEvent e db).meetings, mm.calendarEventId ≠ some e.id := by
  unfold handleDeletedEvent
  cases hf : findMeetingByEventId db e.id with
  | none =>
    intro mm hmm
    have := List.find?_eq_none.mp hf mm hmm
    simpa using this
  | some a =>
    intro mm hmm
    have := (List.mem_filter.mp hmm).2
    simpa using this

theorem handleDeletedEvent_noop (e : GoogleEvent) (db : DB)
    (h : ∀ mm ∈ db.meetings, mm.calendarEventId ≠ some e.id) :
    handleDeletedEvent e db = db := by
  unfold handleDeletedEvent
  have hf : findMeetingByEventId db e.id = none := by
    unfold findMeetingByEventId
    exact List.find?_eq_none.mpr fun mm hmm => by simp [h mm hmm]
  rw [hf]

theorem processEvent_keeps (user : User) (e : GoogleEvent) (db : DB) (mm : Meeting)
    (hmm : mm ∈ db.meetings) (hcid : mm.calendarEventId ≠ some e.id) :
    mm ∈ (processEvent user e db).meetings := by
  unfold processEvent
  cases hu : extractMeetingUrl e with
  | none => exact hmm
  | some url =>
    cases hs : e.startDateTime with
    | none => exact hmm
    | some st =>
      cases hf : findMeetingByEventId db e.id with
      | none => exact List.mem_append_left _ hmm
      | some ex =>
        have hi : (if mm.calendarEventId == some e.id
            then processEventUpdate e url st ex.botSent mm else mm) = mm := by
          simp [hcid]
        exact hi ▸ List.mem_map_of_mem _ hmm

theorem processEvent_cases (user : User) (e : GoogleEvent) (db : DB) (mm : Meeting)
    (hmm : mm ∈ (processEvent user e db).meetings) :
    mm ∈ db.meetings ∨
    (∃ a ∈ db.meetings, a.calendarEventId = some e.id ∧
      ∃ url st b, mm = processEventUpdate e url st b a) ∨
    (∃ url st, extractMeetingUrl e = some url ∧ e.startDateTime = some st ∧
      mm = newMeetingRecord user e url st) := by
  unfold processEvent at hmm
  cases hu : extractMeetingUrl e with
  | none =>
    rw [hu] at hmm
    exact Or.inl hmm
  | some url =>
    cases hs : e.startDateTime with
    | none =>
      rw [hu, hs] at hmm
      exact Or.inl hmm
    | some st =>
      rw [hu, hs] at hmm
      cases hf : findMeetingByEventId db e.id with
      | none =>
        rw [hf] at hmm
        rcases List.mem_append.mp hmm with h | h
        · exact Or.inl h
        · exact Or.inr (Or.inr ⟨url, st, rfl, rfl, List.mem_singleton.mp h⟩)
      | some ex =>
        rw [hf] at hmm
        rcases List.mem_map.mp hmm with ⟨a, ha, hEq⟩
        by_cases hpa : (a.calendarEventId == some e.id) = true
        · refine Or.inr (Or.inl ⟨a, ha, by simpa using hpa, url, st, ex.botSent, ?_⟩)
          rw [← hEq, if_pos hpa]
        · left
          have : mm = a := by
            rw [← hEq]
            simp [hpa]
          exact this ▸ ha

theorem processEventUpdate_idem (e : GoogleEvent) (url : String) (st : Int)
    (b : Bool) (m : Meeting) :
    processEventUpdate e url st b (processEventUpdate e url st b m) =
      processEventUpdate e url st b m := by
  cases b <;> rfl

theorem stepEvent_not_uid (user : User) (e : GoogleEvent) (db : DB) (uid : String)
    (hgen : newMeetingId e ≠ uid)
    (h : ∀ mm ∈ db.meetings, mm.id ≠ uid) :
    ∀ mm ∈ (stepEvent user db e).meetings, mm.id ≠ uid := by
  intro mm hmm
  unfold stepEvent at hmm
  by_cases hc : (e.status == some "cancelled") = true
  · rw [if_pos hc] at hmm
    exact h mm (handleDeletedEvent_subset e db mm hmm)
  · rw [if_neg hc] at hmm
    rcases processEvent_cases user e db mm hmm with h1 | h2 | h3
    · exact h mm h1
    · obtain ⟨a, ha, _, url, st, b, hEq⟩ := h2
      rw [hEq, processEventUpdate_id]
      exact h a ha
    · obtain ⟨url, st, _, _, hEq⟩ := h3
      rw [hEq]
      exact hgen

theorem stepEvent_noEvt (user : User) (e2 : GoogleEvent) (X : String) (db : DB)
    (hne : e2.id ≠ X)
    (h : ∀ mm ∈ db.meetings, mm.calendarEventId ≠ some X) :
    ∀ mm ∈ (stepEvent user db e2).meetings, mm.calendarEventId ≠ some X := by
  intro mm hmm
  unfold stepEvent at hmm
  by_cases hc : (e2.status == some "cancelled") = true
  · rw [if_pos hc] at hmm
    exact h mm (handleDeletedEvent_subset e2 db mm hmm)
  · rw [if_neg hc] at hmm
    rcases processEvent_cases user e2 db mm hmm with h1 | h2 | h3
    · exact h mm h1
    · obtain ⟨a, ha, hacid, url, st, b, hEq⟩ := h2
      rw [hEq, processEventUpdate_calendarEventId, hacid]
      intro hx
      exact hne (Option.some.inj hx)
    · obtain ⟨url, st, _, _, hEq⟩ := h3
      rw [hEq]
      intro hx
      exact hne (Option.some.inj hx)

theorem stepEvent_keeps (user : User) (e2 : GoogleEvent) (db : DB) (mm : Meeting)
    (hmm : mm ∈ db.meetings) (hcid : mm.calendarEventId ≠ some e2.id) :
    mm ∈ (stepEvent user db e2).meetings := by
  unfold stepEvent
  by_cases hc : (e2.status == some "cancelled") = true
  · rw [if_pos hc]
    exact handleDeletedEvent_keeps e2 db mm hmm hcid
  · rw [if_neg hc]
    exact processEvent_keeps user e2 db mm hmm hcid

theorem stepEvent_preserve_fixed (user : User) (e2 e : GoogleEvent)
    (url : String) (st : Int) (db : DB) (hne : e2.id ≠ e.id)
    (h : ∀ mm ∈ db.meetings, mm.calendarEventId = some e.id →
      processEventUpdate e url st mm.botSent mm = mm) :
    ∀ mm ∈ (stepEvent user db e2).meetings, mm.calendarEventId = some e.id →
      processEventUpdate e url st mm.botSent mm = mm := by
  intro mm hmm hcid
  unfold stepEvent at hmm
  by_cases hc : (e2.status == some "cancelled") = true
  · rw [if_pos hc] at hmm
    exact h mm (handleDeletedEvent_subset e2 db mm hmm) hcid
  · rw [if_neg hc] at hmm
    rcases processEvent_cases user e2 db mm hmm with h1 | h2 | h3
    · exact h mm h1 hcid
    · obtain ⟨a, ha, hacid, url2, st2, b, hEq⟩ := h2
      have hx : mm.calendarEventId = some e2.id := by
        rw [hEq, processEventUpdate_calendarEventId, hacid]
      rw [hcid] at hx
      exact absurd (Option.some.inj hx).symm hne
    · obtain ⟨url2, st2, _, _, hEq⟩ := h3
      have hx : mm.calendarEventId = some e2.id := by rw [hEq]; rfl
      rw [hcid] at hx
      exact absurd (Option.some.inj hx).symm hne

theorem stepEvent_nodupEvt (user : User) (e : GoogleEvent) (db : DB)
    (h : (db.meetings.filterMap Meeting.calendarEventId).Nodup) :
    ((stepEvent user db e).meetings.filterMap Meeting.calendarEventId).Nodup := by
  unfold stepEvent
  by_cases hc : (e.status == some "cancelled") = true
  · rw [if_pos hc]
    unfold handleDeletedEvent
    cases hf : findMeetingByEventId db e.id with
    | none => exact h
    | some a =>
      exact List.Nodup.sublist
        (List.Sublist.filterMap Meeting.calendarEventId (List.filter_sublist _)) h
  · rw [if_neg hc]
    unfold processEvent
    cases hu : extractMeetingUrl e with
    | none => exact h
    | some url =>
      cases hs : e.startDateTime with
      | none => exact h
      | some st =>
        cases hf : findMeetingByEventId db e.id with
        | some ex =>
          unfold updateMeetingsByEventId
          rw [List.filterMap_map]
          have hfun : (Meeting.calendarEventId ∘ fun m =>
              if m.calendarEventId == some e.id
              then processEventUpdate e url st ex.botSent m else m) =
              Meeting.calendarEventId := by
            funext a
            by_cases hpa : (a.calendarEventId == some e.id) = true <;>
              simp [Function.comp, hpa, processEventUpdate_calendarEventId]
          rw [hfun]
          exact h
        | none =>
          show ((db.meetings ++ [newMeetingRecord user e url st]).filterMap
            Meeting.calendarEventId).Nodup
          rw [List.filterMap_append]
          refine List.Nodup.append h (by simp [newMeetingRecord]) ?_
          intro x hx1 hx2
          have hxe : x = e.id := by
            simpa [newMeetingRecord] using hx2
          obtain ⟨mm, hmm, hmcid⟩ := List.mem_filterMap.mp hx1
          have h2 : mm.calendarEventId ≠ some e.id := by
            simpa using List.find?_eq_none.mp hf mm hmm
          rw [hxe] at hmcid
          exact h2 hmcid

/-! ### Fold-level invariants over the event loop -/

theorem foldEvents_not_uid (user : User) (uid : String) :
    ∀ (events : List GoogleEvent) (db : DB),
      (∀ e ∈ events, newMeetingId e ≠ uid) →
      (∀ mm ∈ db.meetings, mm.id ≠ uid) →
      ∀ mm ∈ (events.foldl (stepEvent user) db).meetings, mm.id ≠ uid := by
  intro events
  induction events with
  | nil => intro db _ h; exact h
  | cons a rest ih =>
    intro db hgen h
    rw [List.foldl_cons]
    exact ih (stepEvent user db a)
      (fun e he => hgen e (List.mem_cons_of_mem a he))
      (stepEvent_not_uid user a db uid (hgen a (List.mem_cons_self a rest)) h)

theorem foldEvents_noEvt (user : User) (X : String) :
    ∀ (events : List GoogleEvent) (db : DB),
      (∀ e2 ∈ events, e2.id ≠ X) →
      (∀ mm ∈ db.meetings, mm.calendarEventId ≠ some X) →
      ∀ mm ∈ (events.foldl (stepEvent user) db).meetings,
        mm.calendarEventId ≠ some X := by
  intro events
  induction events with
  | nil => intro db _ h; exact h
  | cons a rest ih =>
    intro db hne h
    rw [List.foldl_cons]
    exact ih (stepEvent user db a)
      (fun e he => hne e (List.mem_cons_of_mem a he))
      (stepEvent_noEvt user a X db (hne a (List.mem_cons_self a rest)) h)

theorem foldEvents_nodupEvt (user : User) :
    ∀ (events : List GoogleEvent) (db : DB),
      (db.meetings.filterMap Meeting.calendarEventId).Nodup →
      (((events.foldl (stepEvent user) db)).meetings.filterMap
        Meeting.calendarEventId).Nodup := by
  intro events
  induction events with
  | nil => intro db h; exact h
  | cons a rest ih =>
    intro db h
    rw [List.foldl_cons]
    exact ih (stepEvent user db a) (stepEvent_nodupEvt user a db h)

theorem foldEvents_preserve_exists (user : User) (e : GoogleEvent) :
    ∀ (events : List GoogleEvent) (db : DB),
      (∀ e2 ∈ events, e2.id ≠ e.id) →
      (∃ mm ∈ db.meetings, mm.calendarEventId = some e.id) →
      ∃ mm ∈ (events.foldl (stepEvent user) db).meetings,
        mm.calendarEventId = some e.id := by
  intro events
  induction events with
  | nil => intro db _ h; exact h
  | cons a rest ih =>
    intro db hne h
    obtain ⟨R, hR, hRc⟩ := h
    rw [List.foldl_cons]
    refine ih (stepEvent user db a)
      (fun e2 he2 => hne e2 (List.mem_cons_of_mem a he2)) ⟨R, ?_, hRc⟩
    refine stepEvent_keeps user a db R hR ?_
    rw [hRc]
    intro hx
    exact hne a (List.mem_cons_self a rest) (Option.some.inj hx).symm

theorem foldEvents_preserve_fixed (user : User) (e : GoogleEvent)
    (url : String) (st : Int) :
    ∀ (events : List GoogleEvent) (db : DB),
      (∀ e2 ∈ events, e2.id ≠ e.id) →
      (∀ mm ∈ db.meetings, mm.calendarEventId = some e.id →
        processEventUpdate e url st mm.botSent mm = mm) →
      ∀ mm ∈ (events.foldl (stepEvent user) db).meetings,
        mm.calendarEventId = some e.id →
        processEventUpdate e url st mm.botSent mm = mm := by
  intro events
  induction events with
  | nil => intro db _ h; exact h
  | cons a rest ih =>
    intro db hne h
    rw [List.foldl_cons]
    exact ih (stepEvent user db a)
      (fun e2 he2 => hne e2 (List.mem_cons_of_mem a he2))
      (stepEvent_preserve_fixed user a e url st db
        (hne a (List.mem_cons_self a rest)) h)

/-! ### Establishment of the per-event facts during the first pass -/

theorem processEvent_estab (user : User) (e : GoogleEvent) (db : DB)
    (url : String) (st : Int)
    (hnd : (db.meetings.filterMap Meeting.calendarEventId).Nodup)
    (hu : extractMeetingUrl e = some url) (hs : e.startDateTime = some st) :
    (∃ mm ∈ (processEvent user e db).meetings, mm.calendarEventId = some e.id) ∧
    (∀ mm ∈ (processEvent user e db).meetings, mm.calendarEventId = some e.id →
      processEventUpdate e url st mm.botSent mm = mm) := by
  unfold processEvent
  rw [hu, hs]
  cases hf : findMeetingByEventId db e.id with
  | some ex =>
    have hf2 : db.meetings.find? (fun mm => mm.calendarEventId == some e.id) =
        some ex := hf
    have hexmem : ex ∈ db.meetings := List.mem_of_find?_eq_some hf2
    have hexcid : ex.calendarEventId = some e.id := by
      simpa using List.find?_some hf2
    constructor
    · refine ⟨processEventUpdate e url st ex.botSent ex, ?_, ?_⟩
      · show _ ∈ (updateMeetingsByEventId db e.id _).meetings
        unfold updateMeetingsByEventId
        have hi : (if ex.calendarEventId == some e.id
            then processEventUpdate e url st ex.botSent ex else ex) =
            processEventUpdate e url st ex.botSent ex := by
          simp [hexcid]
        exact hi ▸ List.mem_map_of_mem _ hexmem
      · rw [processEventUpdate_calendarEventId]
        exact hexcid
    · intro mm hmm hcid
      rcases List.mem_map.mp hmm with ⟨a, ha, hEq⟩
      by_cases hpa : (a.calendarEventId == some e.id) = true
      · have hacid : a.calendarEventId = some e.id := by simpa using hpa
        have haex : a = ex := by
          have hfa := find?_eventId_of_mem db.meetings a e.id hnd ha hacid
          rw [hfa] at hf2
          exact Option.some.inj hf2
        rw [← hEq, if_pos hpa, haex, processEventUpdate_botSent]
        exact processEventUpdate_idem e url st ex.botSent ex
      · have hma : mm = a := by
          rw [← hEq]
          simp [hpa]
        rw [hma] at hcid
        have hno : a.calendarEventId ≠ some e.id := by simpa using hpa
        exact absurd hcid hno
  | none =>
    have hf2 : db.meetings.find? (fun mm => mm.calendarEventId == some e.id) =
        none := hf
    constructor
    · exact ⟨newMeetingRecord user e url st,
        List.mem_append_right _ (List.mem_singleton_self _), rfl⟩
    · intro mm hmm hcid
      rcases List.mem_append.mp hmm with h | h
      · have hno : mm.calendarEventId ≠ some e.id := by
          simpa using List.find?_eq_none.mp hf2 mm h
        exact absurd hcid hno
      · rw [List.mem_singleton.mp h]
        rfl

theorem pass1_cancelled (user : User) :
    ∀ (events : List GoogleEvent) (db : DB) (e : GoogleEvent),
      e ∈ events → (events.map GoogleEvent.id).Nodup →
      (e.status == some "cancelled") = true →
      ∀ mm ∈ (events.foldl (stepEvent user) db).meetings,
        mm.calendarEventId ≠ some e.id := by
  intro events
  induction events with
  | nil =>
    intro db e he
    cases he
  | cons a rest ih =>
    intro db e he hnd hc
    rw [List.map_cons, List.nodup_cons] at hnd
    rw [List.foldl_cons]
    rcases List.mem_cons.mp he with rfl | hetail
    · refine foldEvents_noEvt user e.id rest (stepEvent user db e) ?_ ?_
      · intro e2 h2 heq
        exact hnd.1 (heq ▸ List.mem_map_of_mem GoogleEvent.id h2)
      · have hstep : stepEvent user db e = handleDeletedEvent e db := by
          unfold stepEvent
          rw [if_pos hc]
        rw [hstep]
        exact handleDeletedEvent_noEvt e db
    · exact ih (stepEvent user db a) e hetail hnd.2 hc

theorem pass1_valid (user : User) :
    ∀ (events : List GoogleEvent) (db : DB) (e : GoogleEvent)
      (url : String) (st : Int),
      e ∈ events → (events.map GoogleEvent.id).Nodup →
      (db.meetings.filterMap Meeting.calendarEventId).Nodup →
      (e.status == some "cancelled") = false →
      extractMeetingUrl e = some url → e.startDateTime = some st →
      (∃ mm ∈ (events.foldl (stepEvent user) db).meetings,
        mm.calendarEventId = some e.id) ∧
      (∀ mm ∈ (events.foldl (stepEvent user) db).meetings,
        mm.calendarEventId = some e.id →
        processEventUpdate e url st mm.botSent mm = mm) := by
  intro events
  induction events with
  | nil =>
    intro db e url st he
    cases he
  | cons a rest ih =>
    intro db e url st he hnd hdnd hc hu hs
    rw [List.map_cons, List.nodup_cons] at hnd
    rw [List.foldl_cons]
    rcases List.mem_cons.mp he with rfl | hetail
    · have hstep : stepEvent user db e = processEvent user e db := by
        unfold stepEvent
        rw [if_neg (by simp [hc])]
      rw [hstep]
      obtain ⟨hex, hfix⟩ := processEvent_estab user e db url st hdnd hu hs
      have hne : ∀ e2 ∈ rest, e2.id ≠ e.id := fun e2 h2 heq =>
        hnd.1 (heq ▸ List.mem_map_of_mem GoogleEvent.id h2)
      exact ⟨foldEvents_preserve_exists user e rest (processEvent user e db) hne hex,
             foldEvents_preserve_fixed user e url st rest (processEvent user e db) hne hfix⟩
    · exact ih (stepEvent user db a) e url st hetail hnd.2
        (stepEvent_nodupEvt user a db hdnd) hc hu hs

/-! ### Second pass is the identity -/

theorem stepEvent_id_of_facts (user : User) (a : GoogleEvent) (db1 : DB)
    (hnd : (db1.meetings.filterMap Meeting.calendarEventId).Nodup)
    (hcanc : (a.status == some "cancelled") = true →
      ∀ mm ∈ db1.meetings, mm.calendarEventId ≠ some a.id)
    (hval : (a.status == some "cancelled") = false →
      ∀ url st, extractMeetingUrl a = some url → a.startDateTime = some st →
        (∃ mm ∈ db1.meetings, mm.calendarEventId = some a.id) ∧
        (∀ mm ∈ db1.meetings, mm.calendarEventId = some a.id →
          processEventUpdate a url st mm.botSent mm = mm)) :
    stepEvent user db1 a = db1 := by
  by_cases hc : (a.status == some "cancelled") = true
  · unfold stepEvent
    rw [if_pos hc]
    exact handleDeletedEvent_noop a db1 (hcanc hc)
  · have hcf : (a.status == some "cancelled") = false := by simpa using hc
    unfold stepEvent
    rw [if_neg hc]
    cases hu : extractMeetingUrl a with
    | none =>
      unfold processEvent
      rw [hu]
    | some url =>
      cases hs : a.startDateTime with
      | none =>
        unfold processEvent
        rw [hu, hs]
      | some st =>
        obtain ⟨hex, hfix⟩ := hval hcf url st hu hs
        obtain ⟨R, hR, hRc⟩ := hex
        have hfind : db1.meetings.find?
            (fun mm => mm.calendarEventId == some a.id) = some R :=
          find?_eventId_of_mem db1.meetings R a.id hnd hR hRc
        have hff : findMeetingByEventId db1 a.id = some R := hfind
        unfold processEvent
        rw [hu, hs, hff]
        show updateMeetingsByEventId db1 a.id
          (processEventUpdate a url st R.botSent) = db1
        unfold updateMeetingsByEventId
        have hmap : db1.meetings.map (fun mm =>
            if mm.calendarEventId == some a.id
            then processEventUpdate a url st R.botSent mm else mm) =
            db1.meetings := by
          apply map_congr_id
          intro mm hmm
          by_cases hcm : (mm.calendarEventId == some a.id) = true
          · have hcm2 : mm.calendarEventId = some a.id := by simpa using hcm
            have hmR : mm = R := by
              have h2 := find?_eventId_of_mem db1.meetings mm a.id hnd hmm hcm2
              rw [h2] at hfind
              exact Option.some.inj hfind
            rw [if_pos hcm, hmR]
            exact hfix R hR hRc
          · rw [if_neg hcm]
        rw [hmap]

theorem pass2_identity (user : User) :
    ∀ (events : List GoogleEvent) (db1 : DB),
      (db1.meetings.filterMap Meeting.calendarEventId).Nodup →
      (∀ e ∈ events, (e.status == some "cancelled") = true →
        ∀ mm ∈ db1.meetings, mm.calendarEventId ≠ some e.id) →
      (∀ e ∈ events, (e.status == some "cancelled") = false →
        ∀ url st, extractMeetingUrl e = some url → e.startDateTime = some st →
          (∃ mm ∈ db1.meetings, mm.calendarEventId = some e.id) ∧
          (∀ mm ∈ db1.meetings, mm.calendarEventId = some e.id →
            processEventUpdate e url st mm.botSent mm = mm)) →
      events.foldl (stepEvent user) db1 = db1 := by
  intro events
  induction events with
  | nil => intro db1 _ _ _; rfl
  | cons a rest ih =>
    intro db1 hnd hcanc hval
    rw [List.foldl_cons,
      stepEvent_id_of_facts user a db1 hnd (hcanc a (List.mem_cons_self a rest))
        (hval a (List.mem_cons_self a rest))]
    exact ih db1 hnd (fun e he => hcanc e (List.mem_cons_of_mem a he))
      (fun e he => hval e (List.mem_cons_of_mem a he))

/-! ### The stale-deletion phase never mutates when no meeting carries the account id -/

theorem deleteStale_noop (user : User) (stale : List Meeting) (db : DB)
    (h : ∀ mm ∈ db.meetings, mm.id ≠ user.id) :
    deleteStale user stale db = db := by
  cases stale with
  | nil => rfl
  | cons a rest =>
    have hnone : handleDeletedEventFromDB user db = none := by
      unfold handleDeletedEventFromDB deleteMeetingById
      have hany : (db.meetings.any fun mm => mm.id == user.id) = false := by
        rw [List.any_eq_false]
        intro mm hmm
        simp [h mm hmm]
      rw [hany]
      rfl
    show (match handleDeletedEventFromDB user db with
      | some db2 => deleteStale user rest db2
      | none => db) = db
    rw [hnone]

theorem reconcileOk_eq_fold (user : User) (events : List GoogleEvent)
    (now : Int) (db : DB)
    (h1 : ∀ mm ∈ db.meetings, mm.id ≠ user.id)
    (h2 : ∀ e ∈ events, newMeetingId e ≠ user.id) :
    reconcileOk user events now db = events.foldl (stepEvent user) db := by
  unfold reconcileOk
  exact deleteStale_noop user _ _ (foldEvents_not_uid user user.id events db h2 h1)

/-! ### Claim C9: reconciliation is idempotent -/

/-- C9: running one account's reconciliation twice in succession against the
same fetched event list, starting from the state the first run left, changes
nothing on the second run: the store after the second run equals the store
after the first.  Hypotheses: the credential is valid (expiry beyond the
10-minute margin, so no refresh happens), no meeting row carries the account
id (across tables the store never reuses ids; without this the stale-deletion
arity bug deletes a row by the account id), the fetched event ids are
distinct, and non-null external-event ids are unique in the store. -/
theorem c9_reconcile_idempotent (user : User) (events : List GoogleEvent)
    (now : Int) (db : DB) (exch : ExchangeResult)
    (hexp : now + 10 * 60 * 1000 < user.googleTokenExpiry)
    (h1 : ∀ mm ∈ db.meetings, mm.id ≠ user.id)
    (h2 : ∀ e ∈ events, newMeetingId e ≠ user.id)
    (h3 : (events.map GoogleEvent.id).Nodup)
    (h4 : (db.meetings.filterMap Meeting.calendarEventId).Nodup) :
    syncUserCalendar user exch (.ok events) now
        (syncUserCalendar user exch (.ok events) now db) =
      syncUserCalendar user exch (.ok events) now db := by
  have hsync : ∀ d, syncUserCalendar user exch (.ok events) now d =
      reconcileOk user events now d := by
    intro d
    unfold syncUserCalendar
    rw [if_neg (not_le.mpr hexp)]
    rfl
  rw [hsync db, hsync (reconcileOk user events now db)]
  have hfold1 : reconcileOk user events now db =
      events.foldl (stepEvent user) db :=
    reconcileOk_eq_fold user events now db h1 h2
  have hinvuid : ∀ mm ∈ (events.foldl (stepEvent user) db).meetings,
      mm.id ≠ user.id :=
    foldEvents_not_uid user user.id events db h2 h1
  rw [hfold1,
    reconcileOk_eq_fold user events now (events.foldl (stepEvent user) db)
      hinvuid h2]
  have hnd1 : ((events.foldl (stepEvent user) db).meetings.filterMap
      Meeting.calendarEventId).Nodup := foldEvents_nodupEvt user events db h4
  refine pass2_identity user events _ hnd1 ?_ ?_
  · intro e he hc
    exact pass1_cancelled user events db e he h3 hc
  · intro e he hc url st hu hs
    exact pass1_valid user events db e url st he h3 h4 hc hu hs

/-- Witness for C9: running reconciliation twice over the concrete store
with one matching event equals running it once. -/
theorem c9_reconcile_idempotent_witness :
    syncUserCalendar sampleUser .noToken (.ok [sampleEvent]) 0
        (syncUserCalendar sampleUser .noToken (.ok [sampleEvent]) 0
          { users := [sampleUser], meetings := [sampleMeeting] }) =
      syncUserCalendar sampleUser .noToken (.ok [sampleEvent]) 0
        { users := [sampleUser], meetings := [sampleMeeting] } :=
  c9_reconcile_idempotent sampleUser [sampleEvent] 0
    { users := [sampleUser], meetings := [sampleMeeting] } .noToken
    (by decide) (by decide) (by decide) (by decide) (by decide)
